import Mathlib

/-!
Shallow embedding of the substreams chain adapter of graph-node:

* the stream event mapper `to_block_stream_event`
  (src/chain/substreams/src/mapper.rs), and
* the entity change applier `process_trigger` together with the typed
  value decoder `decode_entity_change`
  (src/chain/substreams/src/trigger.rs).

Wire payload bytes are abstracted to their decode results (an
undecodable byte blob is represented by `none`); machine integers are
`Int`/`Nat` with the one observable cast (`u64 as i32` on the clock
number) made explicit.  Rust panics are modelled as a distinguished
`panic` outcome, Rust `Result` as `Except`.
-/

deriving instance DecidableEq for Except

namespace Substreams

/-- Modelled from the spec: the entity-change operation enum of the wire
codec (`UNSET`, `CREATE`, `UPDATE`, `DELETE`); the generated protobuf
codec module is not part of the given sources (spec section 6). -/
inductive Operation
  | Unset
  | Create
  | Update
  | Delete
  deriving DecidableEq

/-- Modelled from the spec: the wire-typed scalar union (spec section 3):
Int32, BigIntDecimalString (`Bigint`), BigDecimalString (`Bigdecimal`),
UTF8String (`String`), Base64Bytes (`Bytes`), Bool, Array.  Constructor
names follow the generated codec (`value::Typed`), which is not among
the given sources.  The payloads of `Bool` and `Array` are elided: the
decoder ignores them. -/
inductive Typed
  | Int32 (v : Int)
  | Bigdecimal (s : String)
  | Bigint (s : String)
  | String (s : String)
  | Bytes (s : String)
  | Bool
  | Array
  deriving DecidableEq

/-- Modelled from the spec: a field of an entity change
`{name, optional newValue, optional oldValue}` (spec sections 3 and 6). -/
structure Field where
  name : String
  new_value : Option Typed
  old_value : Option Typed
  deriving DecidableEq

/-- Modelled from the spec: one entity change record
`{entity, id, operation, fields}` (spec sections 3 and 6). -/
structure EntityChange where
  entity : String
  id : String
  operation : Operation
  fields : List Field
  deriving DecidableEq

/-- Modelled from the spec: the decoded change set carried by a map
output; an ordered sequence of entity changes. -/
structure EntityChanges where
  entity_changes : List EntityChange
  deriving DecidableEq

/-- Arbitrary-precision decimal, `digits * 10 ^ (-exp)`.  Modelled from
the spec: the store's BigDecimal scalar lives outside the given
sources. -/
structure BigDecimal where
  digits : Int
  exp : Int
  deriving DecidableEq

/-- The store value domain (`graph::prelude::Value`), restricted to the
variants this core can produce (spec section 3: Int, BigInt, BigDecimal,
String, Bytes, Null).  `Null` is only ever a transient placeholder of
the map-insertion idiom and never escapes (see `insertData`). -/
inductive Value
  | Int (i : Int)
  | BigDecimal (b : BigDecimal)
  | BigInt (i : Int)
  | String (s : String)
  | Bytes (bs : List Nat)
  | Null
  deriving DecidableEq

/-- The applier's error channel (`MappingError`); only the `Unknown`
variant is produced by this core. -/
inductive MappingError
  | Unknown (msg : String)
  | PossibleReorg (msg : String)
  deriving DecidableEq

/-- The message of the abort on an `Unset` operation
(trigger.rs line 184). -/
def unsetMsg : String :=
  "Detected UNSET entity operation, either a server error or there\x27s a new type of operation and we\x27re running an outdated protobuf"

/-- Message of the `unimplemented` decode error for Bool and Array
(trigger.rs lines 255 and 258). -/
def unimplementedMsg : String := "unimplemented"

/-- Models the panic of `Option::unwrap` on `None`. -/
def unwrapNoneMsg : String := "called Option.unwrap on a None value"

/-- Modelled from the spec: diagnostic of the big-integer parser on an
empty input (the parser lives in an external crate). -/
def emptyIntMsg : String := "cannot parse integer from empty string"

/-- Modelled from the spec: diagnostic of the big-integer parser on a
non-digit character (the parser lives in an external crate). -/
def invalidDigitMsg : String := "invalid digit found in string"

/-- Modelled from the spec: diagnostic of the big-decimal parser. -/
def invalidDecimalMsg : String := "invalid decimal literal"

/-- Modelled from the spec: base64 diagnostic for a byte outside the
alphabet. -/
def b64SymbolMsg : String := "invalid base64 symbol"

/-- Modelled from the spec: base64 diagnostic for a length that is not a
multiple of four. -/
def b64LengthMsg : String := "invalid base64 length"

/-- Modelled from the spec: base64 diagnostic for misplaced padding. -/
def b64PaddingMsg : String := "invalid base64 padding"

/-- Digit run of `parseBigInt`: fold decimal digits onto an
accumulator, failing on the first non-digit. -/
def parseDigitsGo (acc : Nat) : List Char → Except String Nat
  | [] => .ok acc
  | c :: cs =>
    if c.isDigit then parseDigitsGo (acc * 10 + (c.toNat - 48)) cs
    else .error invalidDigitMsg

/-- A non-empty all-digit run, most significant digit first. -/
def parseNatDigits (l : List Char) : Except String Nat :=
  match l with
  | [] => .error invalidDigitMsg
  | _ => parseDigitsGo 0 l

/-- Character-level body of `parseBigInt`: optional sign, then a
non-empty digit run. -/
def parseBigIntChars : List Char → Except String Int
  | [] => .error emptyIntMsg
  | c :: rest =>
    if c = '+' then (parseNatDigits rest).map (fun n : Nat => (n : Int))
    else if c = '-' then (parseNatDigits rest).map (fun n : Nat => -(n : Int))
    else (parseNatDigits (c :: rest)).map (fun n : Nat => (n : Int))

/-- Modelled from the spec: `BigInt::from_str` (spec section 4.2) — an
arbitrary-precision decimal integer string with optional sign; parse
failure carries the parser's diagnostic.  The parser itself lives in an
external crate, outside the given sources. -/
def parseBigInt (s : String) : Except String Int :=
  parseBigIntChars s.data

/-- Leading decimal digit run of a character list, returning the digit
values and the rest. -/
def takeDigits : List Char → List Nat × List Char
  | [] => ([], [])
  | c :: cs =>
    if c.isDigit then
      let p := takeDigits cs
      ((c.toNat - 48) :: p.1, p.2)
    else ([], c :: cs)

/-- Value of a big-endian digit list. -/
def digitsVal (ds : List Nat) : Nat := ds.foldl (fun a d => a * 10 + d) 0

/-- Exponent digit run of a decimal literal: a non-empty all-digit run
consuming the whole rest, negated when `sign` is set. -/
def parseExpDigits (sign : Bool) (l : List Char) : Except String Int :=
  match l with
  | [] => .error invalidDecimalMsg
  | l =>
    if l.all Char.isDigit then
      .ok (if sign then -(digitsVal (l.map (fun d => d.toNat - 48)) : Int)
           else (digitsVal (l.map (fun d => d.toNat - 48)) : Int))
    else .error invalidDecimalMsg

/-- Exponent suffix of a decimal literal: optional sign, then a
non-empty digit run consuming the whole rest. -/
def parseExpPart : List Char → Except String Int
  | [] => .error invalidDecimalMsg
  | c :: cs =>
    if c = '-' then parseExpDigits true cs
    else if c = '+' then parseExpDigits false cs
    else parseExpDigits false (c :: cs)

/-- Signed mantissa from integer-part and fraction-part digits. -/
def bdMant (sign : Bool) (ip fp : List Nat) : Int :=
  if sign then -((digitsVal (ip ++ fp) : Nat) : Int)
  else ((digitsVal (ip ++ fp) : Nat) : Int)

/-- Tail of a decimal literal after all mantissa digits: nothing, or an
exponent marker with its suffix. -/
def parseBigDecimalExp (sign : Bool) (ip fp : List Nat) (rest : List Char) : Except String BigDecimal :=
  match rest with
  | [] => .ok ⟨bdMant sign ip fp, (fp.length : Int)⟩
  | 'e' :: t => (parseExpPart t).map (fun ex => ⟨bdMant sign ip fp, (fp.length : Int) - ex⟩)
  | 'E' :: t => (parseExpPart t).map (fun ex => ⟨bdMant sign ip fp, (fp.length : Int) - ex⟩)
  | _ => .error invalidDecimalMsg

/-- Rest of a decimal literal after the integer digits `ip`: an optional
fraction, then the exponent tail; at least one mantissa digit is
required overall. -/
def parseBigDecimalTail (sign : Bool) (ip : List Nat) (l : List Char) : Except String BigDecimal :=
  match l with
  | '.' :: t =>
    if ip.isEmpty ∧ (takeDigits t).1.isEmpty then .error invalidDecimalMsg
    else parseBigDecimalExp sign ip (takeDigits t).1 (takeDigits t).2
  | l =>
    if ip.isEmpty then .error invalidDecimalMsg
    else parseBigDecimalExp sign ip [] l

/-- Unsigned part of a decimal literal: integer digits, optional
fraction, optional exponent. -/
def parseBigDecimalMag (sign : Bool) (l : List Char) : Except String BigDecimal :=
  parseBigDecimalTail sign (takeDigits l).1 (takeDigits l).2

/-- Modelled from the spec: `BigDecimal::from_str` (spec section 4.2) —
an arbitrary-precision decimal number string; parse failure carries the
parser's diagnostic.  The parser itself lives in an external crate,
outside the given sources. -/
def parseBigDecimal (s : String) : Except String BigDecimal :=
  match s.data with
  | [] => .error invalidDecimalMsg
  | c :: cs =>
    if c = '-' then parseBigDecimalMag true cs
    else if c = '+' then parseBigDecimalMag false cs
    else parseBigDecimalMag false (c :: cs)

/-- Value of a standard base64 alphabet character. -/
def b64Val (c : Char) : Option Nat :=
  if 'A' ≤ c ∧ c ≤ 'Z' then some (c.toNat - 65)
  else if 'a' ≤ c ∧ c ≤ 'z' then some (c.toNat - 71)
  else if '0' ≤ c ∧ c ≤ '9' then some (c.toNat + 4)
  else if c = '+' then some 62
  else if c = '/' then some 63
  else none

/-- Base64 decoding of four-character blocks with `=` padding allowed
only in the final block. -/
def base64DecodeGo : List Char → Except String (List Nat)
  | [] => .ok []
  | a :: b :: c :: d :: rest =>
    match b64Val a, b64Val b with
    | some va, some vb =>
      if c = '=' then
        if d = '=' then
          if rest.isEmpty then .ok [va * 4 + vb / 16]
          else .error b64PaddingMsg
        else .error b64PaddingMsg
      else
        match b64Val c with
        | some vc =>
          if d = '=' then
            if rest.isEmpty then .ok [va * 4 + vb / 16, (vb % 16) * 16 + vc / 4]
            else .error b64PaddingMsg
          else
            match b64Val d with
            | some vd =>
              (base64DecodeGo rest).map
                (fun bs => (va * 4 + vb / 16) :: ((vb % 16) * 16 + vc / 4) :: ((vc % 4) * 64 + vd) :: bs)
            | none => .error b64SymbolMsg
        | none => .error b64SymbolMsg
    | _, _ => .error b64SymbolMsg
  | _ => .error b64LengthMsg

/-- Modelled from the spec: `base64::decode` (spec section 4.2) —
standard-alphabet base64 with padding; malformed input yields a decode
error.  The decoder itself lives in an external crate, outside the
given sources. -/
def base64Decode (s : String) : Except String (List Nat) :=
  base64DecodeGo s.data

/-- The typed value decoder `decode_entity_change`
(trigger.rs lines 241-261): one wire-typed scalar to one store value,
or a `MappingError::Unknown` wrapping the parser's diagnostic.  The
source unwraps `new_value` (its callers guard with `is_some`); the
`none` arm models that unreachable unwrap. -/
def decode_entity_change (field : Field) : Except MappingError Value :=
  match field.new_value with
  | none => .error (.Unknown unwrapNoneMsg)
  | some t =>
    match t with
    | .Int32 v => .ok (.Int v)
    | .Bigdecimal s =>
      match parseBigDecimal s with
      | .ok bd => .ok (.BigDecimal bd)
      | .error e => .error (.Unknown e)
    | .Bigint s =>
      match parseBigInt s with
      | .ok n => .ok (.BigInt n)
      | .error e => .error (.Unknown e)
    | .String s => .ok (.String s)
    | .Bytes s =>
      match base64Decode s with
      | .ok bs => .ok (.Bytes bs)
      | .error e => .error (.Unknown e)
    | .Bool => .error (.Unknown unimplementedMsg)
    | .Array => .error (.Unknown unimplementedMsg)

/-- Extensional model of the `HashMap<String, Value>` accumulated per
change: `*data.entry(name).or_insert(Null) = value` inserts the key or
overwrites the existing binding (trigger.rs lines 198-200). -/
def insertData : List (String × Value) → String → Value → List (String × Value)
  | [], k, v => [(k, v)]
  | (k', v') :: rest, k, v =>
    if k' = k then (k, v) :: rest
    else (k', v') :: insertData rest k v

/-- Lookup in the field-mapping model. -/
def lookupData : List (String × Value) → String → Option Value
  | [], _ => none
  | (k', v') :: rest, k => if k' = k then some v' else lookupData rest k

/-- The field loop of a Create/Update change (trigger.rs lines 194-202):
fields with an absent `new_value` are skipped; present ones are decoded
(aborting on the first decode error) and inserted with overwrite. -/
def buildData : List (String × Value) → List Field → Except MappingError (List (String × Value))
  | acc, [] => .ok acc
  | acc, f :: fs =>
    if f.new_value.isSome then
      match decode_entity_change f with
      | .error e => .error e
      | .ok v => buildData (insertData acc f.name v) fs
    else buildData acc fs

/-- The entity key `(type name, id)` (`EntityKey::data`). -/
structure EntityKey where
  entity_type : String
  entity_id : String
  deriving DecidableEq

/-- A proof-of-indexing event (`ProofOfIndexingEvent::SetEntity` /
`RemoveEntity`). -/
inductive PoiEvent
  | SetEntity (entity_type : String) (id : String) (data : List (String × Value))
  | RemoveEntity (entity_type : String) (id : String)
  deriving DecidableEq

/-- An observable side effect of the applier, in emission order: a
proof-of-indexing write, an entity-cache upsert, or an entity-cache
removal. -/
inductive Effect
  | poi (ev : PoiEvent)
  | storeSet (key : EntityKey) (data : List (String × Value))
  | storeRemove (key : EntityKey)
  deriving DecidableEq

/-- `write_poi_event` (trigger.rs lines 140-150): a no-op when no
proof-of-indexing accumulator is configured (`poi = false`). -/
def write_poi_event (poi : Bool) (ev : PoiEvent) : List Effect :=
  if poi then [.poi ev] else []

/-- The Create/Update type-name normalization (trigger.rs lines
188-191): `entity[0..1].to_uppercase() + &entity[1..]`.  Faithful for
names whose first character is ASCII (on an empty name or a multi-byte
first character the Rust byte slicing panics instead). -/
def upperFirst (s : String) : String :=
  match s.data with
  | [] => ""
  | c :: cs => ⟨c.toUpper :: cs⟩

/-- One iteration of the change loop of `process_trigger`
(trigger.rs lines 179-235): `Unset` aborts; `Create`/`Update` decode the
fields, emit the proof-of-indexing `SetEntity` event and then upsert
under the normalized type name; `Delete` removes under the verbatim type
name and then emits `RemoveEntity`. -/
def applyChange (poi : Bool) (c : EntityChange) : Except MappingError (List Effect) :=
  match c.operation with
  | .Unset => .error (.Unknown unsetMsg)
  | .Create | .Update =>
    match buildData [] c.fields with
    | .error e => .error e
    | .ok data =>
      .ok (write_poi_event poi (.SetEntity (upperFirst c.entity) c.id data) ++
           [.storeSet ⟨upperFirst c.entity, c.id⟩ data])
  | .Delete =>
    .ok ([.storeRemove ⟨c.entity, c.id⟩] ++
         write_poi_event poi (.RemoveEntity c.entity c.id))

/-- The applier `process_trigger` (trigger.rs lines 167-238) on one
block's ordered change list: the effects emitted before the first
failing change, together with the error that aborted the batch (if
any). -/
def process_trigger (poi : Bool) : List EntityChange → List Effect × Option MappingError
  | [] => ([], none)
  | c :: cs =>
    match applyChange poi c with
    | .error e => ([], some e)
    | .ok efs =>
      let r := process_trigger poi cs
      (efs ++ r.1, r.2)

/-- The fork-step enum (`sf.substreams.v1.ForkStep`), spec section 3. -/
inductive ForkStep
  | StepUnknown
  | StepNew
  | StepUndo
  | StepIrreversible
  deriving DecidableEq

/-- Modelled from the spec: decoding of the fork step from its wire
integer (`ForkStep::from_i32` of the generated protobuf, not among the
given sources); unknown codes give `none`. -/
def ForkStep.from_i32 (i : Int) : Option ForkStep :=
  if i = 0 then some .StepUnknown
  else if i = 1 then some .StepNew
  else if i = 2 then some .StepUndo
  else if i = 4 then some .StepIrreversible
  else none

/-- Modelled from the spec: the payload clock
`{id: string block-hash, number, timestamp}` (spec section 6); the
timestamp is ignored by this core. -/
structure Clock where
  id : String
  number : Nat
  timestamp : Option Nat
  deriving DecidableEq

/-- Modelled from the spec: a module output's data, either a map-output
byte blob or a store-delta byte blob (spec section 6).  The map-output
bytes are abstracted to their decode result under the fixed
`EntityChanges` schema; `MapOutput none` stands for bytes on which that
decoding fails. -/
inductive Data
  | MapOutput (changes : Option EntityChanges)
  | StoreDeltas
  deriving DecidableEq

/-- Modelled from the spec: one named module output; only its `data`
field is consulted by the mapper (`module_output.data` is an optional
wire field, unwrapped by the source). -/
structure ModuleOutput where
  name : String
  data : Option Data
  deriving DecidableEq

/-- Modelled from the spec: one block-scoped payload — fork-step wire
integer, module outputs, optional clock, opaque cursor
(spec sections 3 and 6). -/
structure BlockScopedData where
  step : Int
  outputs : List ModuleOutput
  clock : Option Clock
  cursor : String
  deriving DecidableEq

/-- The mapper's typed error channel (`SubstreamsError`); `Other` covers
errors converted into it by the `?` operator, such as a failing
block-hash conversion. -/
inductive SubstreamsError
  | MultipleModuleOutputError
  | UnexpectedStoreDeltaOutput
  | Other (msg : String)
  deriving DecidableEq

/-- Value of a hexadecimal digit character. -/
def hexVal (c : Char) : Option Nat :=
  if '0' ≤ c ∧ c ≤ '9' then some (c.toNat - 48)
  else if 'a' ≤ c ∧ c ≤ 'f' then some (c.toNat - 87)
  else if 'A' ≤ c ∧ c ≤ 'F' then some (c.toNat - 55)
  else none

/-- Hex decoding of digit pairs into bytes. -/
def hexDecodeGo : List Char → Except String (List Nat)
  | [] => .ok []
  | c1 :: c2 :: rest =>
    match hexVal c1, hexVal c2 with
    | some a, some b => (hexDecodeGo rest).map (fun bs => (a * 16 + b) :: bs)
    | _, _ => .error "invalid hex character"
  | [_] => .error "odd number of hex digits"

/-- Modelled from the spec: the conversion of the clock's string block
hash into a `BlockHash` byte value (`hash.as_str().try_into()` in
mapper.rs line 47; the conversion itself is not among the given
sources): hex decoding after an optional `0x`. -/
def tryIntoBlockHash (s : String) : Except String (List Nat) :=
  hexDecodeGo
    (match s.data with
     | '0' :: 'x' :: r => r
     | l => l)

/-- The cast `*number as BlockNumber` (u64 to i32, mapper.rs line 48):
truncation to 32 bits, then two's-complement reading. -/
def u64ToI32 (n : Nat) : Int :=
  let m : Nat := n % 2 ^ 32
  if m < 2 ^ 31 then (m : Int) else (m : Int) - 2 ^ 32

/-- The synthetic trigger marker (`TriggerData {}`) attached to every
processed block. -/
inductive TriggerData
  | mk
  deriving DecidableEq

/-- A decoded block handed to processing: hash, number, change set. -/
structure Block where
  hash : List Nat
  number : Int
  changes : EntityChanges
  deriving DecidableEq

/-- `BlockWithTriggers::new(block, vec![TriggerData {}])`. -/
structure BlockWithTriggers where
  block : Block
  trigger_data : List TriggerData
  deriving DecidableEq

/-- A block pointer `{hash, number}`. -/
structure BlockPtr where
  hash : List Nat
  number : Int
  deriving DecidableEq

/-- The mapper's outbound event: process a block or revert to a block
pointer, each carrying the cursor. -/
inductive BlockStreamEvent
  | ProcessBlock (b : BlockWithTriggers) (cursor : String)
  | Revert (ptr : BlockPtr) (cursor : String)
  deriving DecidableEq

/-- Outcome of one mapper invocation: a Rust panic (process abort), a
typed `SubstreamsError`, or `Ok` with at most one event. -/
inductive MapperResult
  | panic (msg : String)
  | err (e : SubstreamsError)
  | ok (ev : Option BlockStreamEvent)
  deriving DecidableEq

/-- Panic message for an undecodable fork-step integer
(mapper.rs lines 22-27). -/
def unknownStepMsg (i : Int) : String :=
  "unknown step i32 value " ++ toString i ++
    ", maybe you forgot update & re-regenerate the protobuf definitions?"

/-- Panic message of the `StepUnknown` arm (mapper.rs line 83). -/
def unknownStepVariantMsg : String :=
  "unknown step should not happen in the Firehose response"

/-- The stream event mapper `to_block_stream_event`
(mapper.rs lines 17-89), step for step: decode the fork step (panic on
an unknown integer); `Ok None` on zero outputs; `MultipleModuleOutput`
on more than one; unwrap the clock (panic if absent); convert the hash
(`?` turns a failure into a typed error) and cast the number; unwrap
the output's data (panic if absent); decode map-output changes (panic
on failure) and dispatch on the step, or fail with
`UnexpectedStoreDeltaOutput` on a store-delta output. -/
def to_block_stream_event (d : BlockScopedData) : MapperResult :=
  match ForkStep.from_i32 d.step with
  | none => .panic (unknownStepMsg d.step)
  | some step =>
    match d.outputs with
    | [] => .ok none
    | _ :: _ :: _ => .err .MultipleModuleOutputError
    | [module_output] =>
      match d.clock with
      | none => .panic unwrapNoneMsg
      | some clock =>
        match tryIntoBlockHash clock.id with
        | .error e => .err (.Other e)
        | .ok hash =>
          let number : Int := u64ToI32 clock.number
          match module_output.data with
          | none => .panic unwrapNoneMsg
          | some (.MapOutput ochanges) =>
            match ochanges with
            | none => .panic unwrapNoneMsg
            | some changes =>
              match step with
              | .StepIrreversible | .StepNew =>
                .ok (some (.ProcessBlock ⟨⟨hash, number, changes⟩, [TriggerData.mk]⟩ d.cursor))
              | .StepUndo =>
                .ok (some (.Revert ⟨hash, number⟩ d.cursor))
              | .StepUnknown => .panic unknownStepVariantMsg
          | some .StoreDeltas => .err .UnexpectedStoreDeltaOutput

/-! ### Helper lemmas -/

theorem exceptMap_eq_error {α β γ : Type} (g : α → β) (x : Except γ α) (e : γ) :
    x.map g = .error e ↔ x = .error e := by
  cases x <;> simp [Except.map]

theorem lookupData_insertData_self (acc : List (String × Value)) (k : String) (v : Value) :
    lookupData (insertData acc k v) k = some v := by
  induction acc with
  | nil => simp [insertData, lookupData]
  | cons p rest ih =>
    obtain ⟨k', v'⟩ := p
    by_cases h : k' = k
    · simp [insertData, h, lookupData]
    · simp [insertData, h, lookupData, ih]

theorem lookupData_insertData_ne (acc : List (String × Value)) (k name : String) (v : Value)
    (h : k ≠ name) :
    lookupData (insertData acc k v) name = lookupData acc name := by
  induction acc with
  | nil => simp [insertData, lookupData, h]
  | cons p rest ih =>
    obtain ⟨k', v'⟩ := p
    by_cases hk : k' = k
    · subst hk
      simp [insertData, lookupData, h]
    · simp only [insertData, if_neg hk]
      by_cases hn : k' = name
      · simp [lookupData, hn]
      · simp [lookupData, hn, ih]

/-- The last occurrence of `name` among the fields whose `new_value` is
present (the occurrence whose decoded value the map-insertion loop
leaves in place). -/
def lastValue (name : String) : List Field → Option Field
  | [] => none
  | g :: rest =>
    match lastValue name rest with
    | some r => some r
    | none =>
      if g.name = name then (if g.new_value.isSome then some g else none)
      else none

theorem buildData_lookup_lastValue (fields : List Field) :
    ∀ (acc m : List (String × Value)) (name : String),
      buildData acc fields = .ok m →
      (match lastValue name fields with
       | some f => ∃ v, decode_entity_change f = .ok v ∧ lookupData m name = some v
       | none => lookupData m name = lookupData acc name) := by
  induction fields with
  | nil =>
    intro acc m name h
    simp [buildData] at h
    subst h
    simp [lastValue]
  | cons g rest ih =>
    intro acc m name h
    by_cases hs : g.new_value.isSome
    · simp only [buildData, hs, if_true] at h
      cases hd : decode_entity_change g with
      | error e => rw [hd] at h; exact absurd h (by simp)
      | ok v =>
        rw [hd] at h
        have ihh := ih (insertData acc g.name v) m name h
        cases hrest : lastValue name rest with
        | some r =>
          simp only [hrest] at ihh
          simp only [lastValue, hrest]
          exact ihh
        | none =>
          simp only [hrest] at ihh
          by_cases hn : g.name = name
          · simp only [lastValue, hrest, hn, if_pos rfl, hs, if_true]
            refine ⟨v, hd, ?_⟩
            rw [ihh, ← hn]
            exact lookupData_insertData_self acc g.name v
          · simp only [lastValue, hrest, if_neg hn]
            rw [ihh, lookupData_insertData_ne acc g.name name v hn]
    · have hs' : g.new_value.isSome = false := by simpa using hs
      simp only [buildData, hs', Bool.false_eq_true, if_false] at h
      have ihh := ih acc m name h
      cases hrest : lastValue name rest with
      | some r =>
        simp only [hrest] at ihh
        simp only [lastValue, hrest]
        exact ihh
      | none =>
        simp only [hrest] at ihh
        simp only [lastValue, hrest, hs', Bool.false_eq_true, if_false, ite_self]
        exact ihh

theorem process_trigger_ok_of_forall (poi : Bool) (f : EntityChange → List Effect) :
    ∀ cs : List EntityChange, (∀ c ∈ cs, applyChange poi c = .ok (f c)) →
      process_trigger poi cs = ((cs.map f).flatten, none) := by
  intro cs
  induction cs with
  | nil => intro _; simp [process_trigger]
  | cons c cs ih =>
    intro h
    have hc := h c (by simp)
    have ihh := ih (fun c' hc' => h c' (by simp [hc']))
    simp [process_trigger, hc, ihh]

theorem process_trigger_unset_abort (poi : Bool) (f : EntityChange → List Effect) :
    ∀ (pre : List EntityChange) (c : EntityChange) (post : List EntityChange),
      c.operation = .Unset →
      (∀ c' ∈ pre, applyChange poi c' = .ok (f c')) →
      process_trigger poi (pre ++ c :: post) =
        ((pre.map f).flatten, some (.Unknown unsetMsg)) := by
  intro pre
  induction pre with
  | nil =>
    intro c post hop _
    simp [process_trigger, applyChange, hop]
  | cons p pre ih =>
    intro c post hop h
    have hp := h p (by simp)
    have ihh := ih c post hop (fun c' hc' => h c' (by simp [hc']))
    simp [process_trigger, hp, ihh]

theorem u64ToI32_of_lt (n : Nat) (h : n < 2 ^ 31) : u64ToI32 n = (n : Int) := by
  unfold u64ToI32
  have h32 : n % 2 ^ 32 = n := Nat.mod_eq_of_lt (by omega)
  rw [h32]
  simp only [if_pos h]

theorem parseDigitsGo_error_eq :
    ∀ (l : List Char) (acc : Nat) (e : String),
      parseDigitsGo acc l = .error e → e = invalidDigitMsg := by
  intro l
  induction l with
  | nil => intro acc e h; simp [parseDigitsGo] at h
  | cons c cs ih =>
    intro acc e h
    by_cases hc : c.isDigit
    · simp only [parseDigitsGo, hc, if_true] at h
      exact ih _ e h
    · simp only [parseDigitsGo, hc, if_false] at h
      simp at h
      exact h.symm

theorem parseNatDigits_error_eq (l : List Char) (e : String) :
    parseNatDigits l = .error e → e = invalidDigitMsg := by
  intro h
  cases l with
  | nil => simp [parseNatDigits] at h; exact h.symm
  | cons c cs => exact parseDigitsGo_error_eq (c :: cs) 0 e h

theorem parseBigIntChars_error_mem (l : List Char) (e : String) :
    parseBigIntChars l = .error e → e = emptyIntMsg ∨ e = invalidDigitMsg := by
  intro h
  unfold parseBigIntChars at h
  split at h
  · simp at h
    exact Or.inl h.symm
  · split at h
    · rw [exceptMap_eq_error] at h
      exact Or.inr (parseNatDigits_error_eq _ e h)
    · split at h
      · rw [exceptMap_eq_error] at h
        exact Or.inr (parseNatDigits_error_eq _ e h)
      · rw [exceptMap_eq_error] at h
        exact Or.inr (parseNatDigits_error_eq _ e h)

theorem parseBigInt_error_mem (s : String) (e : String) :
    parseBigInt s = .error e → e = emptyIntMsg ∨ e = invalidDigitMsg :=
  fun h => parseBigIntChars_error_mem s.data e h

theorem parseExpDigits_error_eq (sign : Bool) (l : List Char) (e : String) :
    parseExpDigits sign l = .error e → e = invalidDecimalMsg := by
  intro h
  unfold parseExpDigits at h
  split at h
  · simp at h
    exact h.symm
  · split at h
    · simp at h
    · simp at h
      exact h.symm

theorem parseExpPart_error_eq (l : List Char) (e : String) :
    parseExpPart l = .error e → e = invalidDecimalMsg := by
  intro h
  unfold parseExpPart at h
  split at h
  · simp at h
    exact h.symm
  · split at h
    · exact parseExpDigits_error_eq _ _ e h
    · split at h
      · exact parseExpDigits_error_eq _ _ e h
      · exact parseExpDigits_error_eq _ _ e h

theorem parseBigDecimalExp_error_eq (sign : Bool) (ip fp : List Nat) (rest : List Char)
    (e : String) :
    parseBigDecimalExp sign ip fp rest = .error e → e = invalidDecimalMsg := by
  intro h
  unfold parseBigDecimalExp at h
  split at h
  · simp at h
  · rw [exceptMap_eq_error] at h
    exact parseExpPart_error_eq _ e h
  · rw [exceptMap_eq_error] at h
    exact parseExpPart_error_eq _ e h
  · simp at h
    exact h.symm

theorem parseBigDecimalTail_error_eq (sign : Bool) (ip : List Nat) (l : List Char)
    (e : String) :
    parseBigDecimalTail sign ip l = .error e → e = invalidDecimalMsg := by
  intro h
  unfold parseBigDecimalTail at h
  split at h
  · split at h
    · simp at h
      exact h.symm
    · exact parseBigDecimalExp_error_eq _ _ _ _ e h
  · split at h
    · simp at h
      exact h.symm
    · exact parseBigDecimalExp_error_eq _ _ _ _ e h

theorem parseBigDecimal_error_eq (s : String) (e : String) :
    parseBigDecimal s = .error e → e = invalidDecimalMsg := by
  intro h
  unfold parseBigDecimal at h
  split at h
  · simp at h
    exact h.symm
  · split at h
    · exact parseBigDecimalTail_error_eq _ _ _ e h
    · split at h
      · exact parseBigDecimalTail_error_eq _ _ _ e h
      · exact parseBigDecimalTail_error_eq _ _ _ e h

theorem base64DecodeGo_error_mem :
    ∀ (l : List Char) (e : String),
      base64DecodeGo l = .error e →
        e = b64SymbolMsg ∨ e = b64LengthMsg ∨ e = b64PaddingMsg := by
  intro l
  induction l using base64DecodeGo.induct with
  | case1 => intro e h; simp [base64DecodeGo] at h
  | case2 a b rest va vb hb ha hrest =>
    intro e h; simp [base64DecodeGo, ha, hb, hrest] at h
  | case3 a b rest va vb hb ha hrest =>
    intro e h
    simp [base64DecodeGo, ha, hb, hrest] at h
    exact Or.inr (Or.inr h.symm)
  | case4 a b d rest va vb hb ha hd =>
    intro e h
    simp [base64DecodeGo, ha, hb, hd] at h
    exact Or.inr (Or.inr h.symm)
  | case5 a b c rest va vb hb ha hc vc hcv hrest =>
    intro e h; simp [base64DecodeGo, ha, hb, hc, hcv, hrest] at h
  | case6 a b c rest va vb hb ha hc vc hcv hrest =>
    intro e h
    simp [base64DecodeGo, ha, hb, hc, hcv, hrest] at h
    exact Or.inr (Or.inr h.symm)
  | case7 a b c d rest va vb hb ha hc vc hcv hd vd hdv ih =>
    intro e h
    simp only [base64DecodeGo, ha, hb, hcv, hdv, if_neg hc, if_neg hd] at h
    rw [exceptMap_eq_error] at h
    exact ih e h
  | case8 a b c d rest va vb hb ha hc vc hcv hd hdn =>
    intro e h
    simp [base64DecodeGo, ha, hb, hc, hcv, hd, hdn] at h
    exact Or.inl h.symm
  | case9 a b c d rest va vb hb ha hc hcn =>
    intro e h
    simp [base64DecodeGo, ha, hb, hc, hcn] at h
    exact Or.inl h.symm
  | case10 a b c d rest h1 =>
    intro e h
    cases hva : b64Val a with
    | none =>
      simp [base64DecodeGo, hva] at h
      exact Or.inl h.symm
    | some va =>
      cases hvb : b64Val b with
      | none =>
        simp [base64DecodeGo, hva, hvb] at h
        exact Or.inl h.symm
      | some vb => exact absurd trivial (fun _ => h1 va vb hva hvb)
  | case11 t h0 h4 =>
    intro e h
    rcases t with _ | ⟨a, _ | ⟨b, _ | ⟨c, _ | ⟨d, rest⟩⟩⟩⟩
    · exact absurd rfl h0
    · simp [base64DecodeGo] at h
      exact Or.inr (Or.inl h.symm)
    · simp [base64DecodeGo] at h
      exact Or.inr (Or.inl h.symm)
    · simp [base64DecodeGo] at h
      exact Or.inr (Or.inl h.symm)
    · exact absurd rfl (h4 a b c d rest)

theorem decode_entity_change_error_msgs (f : Field) (e : MappingError) :
    decode_entity_change f = .error e →
      e = .Unknown unwrapNoneMsg ∨ e = .Unknown invalidDecimalMsg ∨
      e = .Unknown emptyIntMsg ∨ e = .Unknown invalidDigitMsg ∨
      e = .Unknown b64SymbolMsg ∨ e = .Unknown b64LengthMsg ∨
      e = .Unknown b64PaddingMsg ∨ e = .Unknown unimplementedMsg := by
  intro h
  unfold decode_entity_change at h
  split at h
  · simp at h
    exact Or.inl h.symm
  · split at h
    · simp at h
    · split at h
      · simp at h
      · next e1 heq =>
        simp at h
        have := parseBigDecimal_error_eq _ e1 heq
        subst this
        exact Or.inr (Or.inl h.symm)
    · split at h
      · simp at h
      · next e1 heq =>
        simp at h
        rcases parseBigInt_error_mem _ e1 heq with h1 | h1 <;> subst h1
        · exact Or.inr (Or.inr (Or.inl h.symm))
        · exact Or.inr (Or.inr (Or.inr (Or.inl h.symm)))
    · simp at h
    · split at h
      · simp at h
      · next e1 heq =>
        simp at h
        rcases base64DecodeGo_error_mem _ e1 heq with h1 | h1 | h1 <;> subst h1
        · exact Or.inr (Or.inr (Or.inr (Or.inr (Or.inl h.symm))))
        · exact Or.inr (Or.inr (Or.inr (Or.inr (Or.inr (Or.inl h.symm)))))
        · exact Or.inr (Or.inr (Or.inr (Or.inr (Or.inr (Or.inr (Or.inl h.symm))))))
    · simp at h
      exact Or.inr (Or.inr (Or.inr (Or.inr (Or.inr (Or.inr (Or.inr h.symm))))))
    · simp at h
      exact Or.inr (Or.inr (Or.inr (Or.inr (Or.inr (Or.inr (Or.inr h.symm))))))

theorem decode_entity_change_error_ne_unset (f : Field) (e : MappingError) :
    decode_entity_change f = .error e → e ≠ .Unknown unsetMsg := by
  intro h heq
  subst heq
  rcases decode_entity_change_error_msgs f _ h with h1 | h1 | h1 | h1 | h1 | h1 | h1 | h1 <;>
    simp [unsetMsg, unwrapNoneMsg, invalidDecimalMsg, emptyIntMsg, invalidDigitMsg,
      b64SymbolMsg, b64LengthMsg, b64PaddingMsg, unimplementedMsg] at h1

/-! ### Decimal digit strings round-trip through `parseBigInt` -/

theorem digitChar_prop :
    ∀ d, d < 10 → (Nat.digitChar d).isDigit = true ∧ (Nat.digitChar d).toNat - 48 = d := by
  decide

theorem parseDigitsGo_digits (ds : List Nat) :
    ∀ acc : Nat, (∀ d ∈ ds, d < 10) →
      parseDigitsGo acc (ds.map Nat.digitChar) =
        .ok (ds.foldl (fun a d => a * 10 + d) acc) := by
  induction ds with
  | nil => intro acc _; simp [parseDigitsGo]
  | cons d ds ih =>
    intro acc h
    have hd := digitChar_prop d (h d (by simp))
    simp only [List.map_cons, parseDigitsGo, hd.1, if_true, List.foldl_cons]
    rw [hd.2]
    exact ih _ (fun d' h' => h d' (by simp [h']))

theorem foldl_reverse_ofDigits (l : List Nat) :
    l.reverse.foldl (fun a d => a * 10 + d) 0 = Nat.ofDigits 10 l := by
  rw [List.foldl_reverse]
  induction l with
  | nil => simp [Nat.ofDigits]
  | cons d l ih =>
    rw [List.foldr_cons, ih, Nat.ofDigits_cons]
    omega

/-- The decimal digit characters of `m`, most significant first. -/
def natChars (m : Nat) : List Char :=
  (Nat.digits 10 m).reverse.map Nat.digitChar

/-- The canonical decimal string of an integer (sign, then digits). -/
def decimalIntString (n : Int) : String :=
  if n < 0 then ⟨'-' :: natChars n.natAbs⟩ else ⟨natChars n.toNat⟩

theorem natChars_ne_nil (m : Nat) (hm : m ≠ 0) : natChars m ≠ [] := by
  simp only [natChars, ne_eq, List.map_eq_nil_iff, List.reverse_eq_nil_iff]
  exact Nat.digits_ne_nil_iff_ne_zero.mpr hm

theorem parseNatDigits_natChars (m : Nat) (hm : m ≠ 0) :
    parseNatDigits (natChars m) = .ok m := by
  have hne := natChars_ne_nil m hm
  have hlt : ∀ d ∈ (Nat.digits 10 m).reverse, d < 10 := fun d hd =>
    Nat.digits_lt_base (by norm_num) (List.mem_reverse.mp hd)
  have h1 := parseDigitsGo_digits ((Nat.digits 10 m).reverse) 0 hlt
  have h2 : parseNatDigits (natChars m) = parseDigitsGo 0 (natChars m) := by
    cases hc : natChars m with
    | nil => exact absurd hc hne
    | cons a l => rfl
  rw [h2]
  show parseDigitsGo 0 ((Nat.digits 10 m).reverse.map Nat.digitChar) = .ok m
  rw [h1, foldl_reverse_ofDigits, Nat.ofDigits_digits]

theorem parseBigInt_decimalIntString (n : Int) (hn : n ≠ 0) :
    parseBigInt (decimalIntString n) = .ok n := by
  by_cases hneg : n < 0
  · have hds : decimalIntString n = ⟨'-' :: natChars n.natAbs⟩ := by
      simp [decimalIntString, hneg]
    have habs : n.natAbs ≠ 0 := Int.natAbs_ne_zero.mpr hn
    rw [hds]
    have hpb : parseBigInt ⟨'-' :: natChars n.natAbs⟩ =
        (parseNatDigits (natChars n.natAbs)).map (fun k : Nat => -(k : Int)) := by
      show parseBigIntChars ('-' :: natChars n.natAbs) = _
      simp [parseBigIntChars]
    rw [hpb, parseNatDigits_natChars _ habs]
    show Except.ok (-((n.natAbs : Nat) : Int)) = Except.ok n
    rw [Int.ofNat_natAbs_of_nonpos (le_of_lt hneg), neg_neg]
  · push_neg at hneg
    have h0 : n.toNat ≠ 0 := by omega
    have hds : decimalIntString n = ⟨natChars n.toNat⟩ := by
      simp [decimalIntString, not_lt.mpr hneg]
    rw [hds]
    cases hc : natChars n.toNat with
    | nil => exact absurd hc (natChars_ne_nil _ h0)
    | cons c l =>
      have hcdig : c.isDigit = true := by
        have hmem : c ∈ natChars n.toNat := by rw [hc]; simp
        simp only [natChars, List.mem_map] at hmem
        obtain ⟨d, hd1, hd2⟩ := hmem
        have hdlt : d < 10 :=
          Nat.digits_lt_base (by norm_num) (List.mem_reverse.mp hd1)
        rw [← hd2]
        exact (digitChar_prop d hdlt).1
      have hplus : ¬(c = '+') := fun he => by
        rw [he] at hcdig; exact absurd hcdig (by decide)
      have hminus : ¬(c = '-') := fun he => by
        rw [he] at hcdig; exact absurd hcdig (by decide)
      have hpb : parseBigInt ⟨c :: l⟩ =
          (parseNatDigits (c :: l)).map (fun k : Nat => (k : Int)) := by
        show parseBigIntChars (c :: l) = _
        simp [parseBigIntChars, hplus, hminus]
      rw [hpb, ← hc, parseNatDigits_natChars _ h0]
      show Except.ok ((n.toNat : Nat) : Int) = Except.ok n
      rw [Int.toNat_of_nonneg hneg]

/-! ### Claim theorems -/

/-- Claim C1: for every Create or Update change the type name used for
the entity key and the proof-of-indexing event is the incoming name
with exactly its first character upper-cased and the rest untouched,
while a Delete change uses the incoming type name verbatim (the
asymmetry of trigger.rs lines 188-191 versus line 218).  The
first-character hypothesis records the ASCII assumption under which the
Rust byte slicing is total. -/
theorem C1_entity_type_casing_asymmetry (poi : Bool) (c : EntityChange)
    (hd : Char) (tl : List Char) :
    ((c.operation = .Create ∨ c.operation = .Update) →
      c.entity.data = hd :: tl → hd.toNat < 128 →
      ∀ m, buildData [] c.fields = .ok m →
        applyChange poi c =
          .ok (write_poi_event poi (.SetEntity ⟨hd.toUpper :: tl⟩ c.id m) ++
               [.storeSet ⟨⟨hd.toUpper :: tl⟩, c.id⟩ m])) ∧
    (c.operation = .Delete →
      applyChange poi c =
        .ok ([.storeRemove ⟨c.entity, c.id⟩] ++
             write_poi_event poi (.RemoveEntity c.entity c.id))) := by
  constructor
  · intro hop hdata _ m hm
    have hup : upperFirst c.entity = ⟨hd.toUpper :: tl⟩ := by
      unfold upperFirst
      rw [hdata]
    rcases hop with hop | hop <;> simp [applyChange, hop, hm, hup]
  · intro hop
    simp [applyChange, hop]

theorem C1_entity_type_casing_asymmetry_witness :
    ((⟨'t'.toUpper :: "oken".data⟩ : String) = "Token") ∧
    applyChange true ⟨"token", "1", .Update, []⟩ =
      .ok (write_poi_event true (.SetEntity ⟨'t'.toUpper :: "oken".data⟩ "1" []) ++
           [.storeSet ⟨⟨'t'.toUpper :: "oken".data⟩, "1"⟩ []]) ∧
    applyChange true ⟨"token", "1", .Delete, []⟩ =
      .ok ([.storeRemove ⟨"token", "1"⟩] ++
           write_poi_event true (.RemoveEntity "token" "1")) :=
  ⟨by decide,
   (C1_entity_type_casing_asymmetry true ⟨"token", "1", .Update, []⟩ 't' "oken".data).1
     (Or.inr rfl) (by decide) (by decide) [] rfl,
   (C1_entity_type_casing_asymmetry true ⟨"token", "1", .Delete, []⟩ 't' "oken".data).2 rfl⟩

/-- Claim C2: a payload whose fork step decodes to Undo (and which
passes the preceding validation: exactly one decodable map output, a
clock whose hash converts, a number in 32-bit range) yields exactly a
`Revert` event whose pointer carries the hash and number of that
payload's own clock, with the cursor threaded through unchanged; the
mapper emits no `ProcessBlock`, so the applier/store is never invoked
for the payload (mapper.rs lines 74-81). -/
theorem C2_undo_revert_from_clock (d : BlockScopedData) (o : ModuleOutput)
    (changes : EntityChanges) (clock : Clock) (h : List Nat) :
    ForkStep.from_i32 d.step = some .StepUndo →
    d.outputs = [o] → o.data = some (.MapOutput (some changes)) →
    d.clock = some clock → tryIntoBlockHash clock.id = .ok h →
    clock.number < 2 ^ 31 →
    to_block_stream_event d =
      .ok (some (.Revert ⟨h, (clock.number : Int)⟩ d.cursor)) := by
  intro hstep houts hdata hclock hhash hnum
  simp only [to_block_stream_event, hstep, houts, hclock, hhash, hdata,
    u64ToI32_of_lt clock.number hnum]

theorem C2_undo_revert_from_clock_witness :
    to_block_stream_event
        ⟨2, [⟨"out", some (.MapOutput (some ⟨[]⟩))⟩], some ⟨"ab", 5, none⟩, "cur"⟩ =
      .ok (some (.Revert ⟨[171], ((5 : Nat) : Int)⟩ "cur")) :=
  C2_undo_revert_from_clock
    ⟨2, [⟨"out", some (.MapOutput (some ⟨[]⟩))⟩], some ⟨"ab", 5, none⟩, "cur"⟩
    ⟨"out", some (.MapOutput (some ⟨[]⟩))⟩ ⟨[]⟩ ⟨"ab", 5, none⟩ [171]
    rfl rfl rfl rfl (by decide) (by decide)

/-- Claim C3: a batch containing an Unset change aborts at that change
(given the changes before it apply cleanly) with the dedicated Unset
error; no change after the Unset is applied to the store or emitted to
the proof-of-indexing accumulator, and the Unset error differs from
every error the typed value decoder can produce
(trigger.rs lines 179-185). -/
theorem C3_unset_aborts_batch (poi : Bool) (f : EntityChange → List Effect)
    (pre post : List EntityChange) (c : EntityChange) :
    c.operation = .Unset →
    (∀ p ∈ pre, applyChange poi p = .ok (f p)) →
    process_trigger poi (pre ++ c :: post) =
      ((pre.map f).flatten, some (.Unknown unsetMsg)) ∧
    (∀ (g : Field) (e : MappingError),
      decode_entity_change g = .error e → e ≠ .Unknown unsetMsg) := by
  intro hop h
  exact ⟨process_trigger_unset_abort poi f pre c post hop h,
         fun g e => decode_entity_change_error_ne_unset g e⟩

theorem C3_unset_aborts_batch_witness :
    process_trigger true
        [⟨"t", "1", .Delete, []⟩, ⟨"u", "2", .Unset, []⟩, ⟨"t", "3", .Delete, []⟩] =
      ([.storeRemove ⟨"t", "1"⟩, .poi (.RemoveEntity "t" "1")],
       some (.Unknown unsetMsg)) := by
  have h := (C3_unset_aborts_batch true
    (fun _ => [.storeRemove ⟨"t", "1"⟩, .poi (.RemoveEntity "t" "1")])
    [⟨"t", "1", .Delete, []⟩] [⟨"t", "3", .Delete, []⟩] ⟨"u", "2", .Unset, []⟩
    rfl (by intro p hp; simp at hp; subst hp; rfl)).1
  simpa using h

/-- Claim C4: a payload carrying two or more module outputs (whose fork
step decodes) fails with `MultipleModuleOutputError`; the statement
holds for arbitrary output contents — including absent data and
undecodable bytes — so no output payload is ever deserialized
(mapper.rs lines 33-35). -/
theorem C4_multiple_outputs_error (d : BlockScopedData) (step : ForkStep) :
    ForkStep.from_i32 d.step = some step → 2 ≤ d.outputs.length →
    to_block_stream_event d = .err .MultipleModuleOutputError := by
  intro hstep hlen
  obtain ⟨st, outputs, oclock, cursor⟩ := d
  cases outputs with
  | nil => simp at hlen
  | cons a t =>
    cases t with
    | nil => simp at hlen
    | cons b t2 => simp [to_block_stream_event, hstep]

theorem C4_multiple_outputs_error_witness :
    to_block_stream_event
        ⟨1, [⟨"a", some (.MapOutput none)⟩, ⟨"b", none⟩], none, ""⟩ =
      .err .MultipleModuleOutputError :=
  C4_multiple_outputs_error
    ⟨1, [⟨"a", some (.MapOutput none)⟩, ⟨"b", none⟩], none, ""⟩
    .StepNew rfl (by decide)

/-- Claim C5 (as stated) is false on the code: a payload whose fork
step decodes to the `Unknown` variant but which carries zero module
outputs is answered with `Ok None` — a normal return, not a process
abort — because the empty-outputs check runs before the step is acted
on (mapper.rs lines 29-31 versus 82-84). -/
theorem C5_counterexample :
    ForkStep.from_i32 (0 : Int) = some ForkStep.StepUnknown ∧
    to_block_stream_event ⟨0, [], none, ""⟩ = MapperResult.ok none := by
  constructor <;> rfl

/-- Claim C5 (amended): an undecodable fork-step integer always panics
(mapper.rs lines 22-27); a fork step decoding to the `Unknown` variant
panics provided the payload reaches event construction — exactly one
module output holding decodable map-output data, a clock whose hash
converts (mapper.rs lines 82-84).  In neither case is the unknown-step
condition returned through the typed error channel. -/
theorem C5_fatal_step_conditions (d : BlockScopedData) :
    (ForkStep.from_i32 d.step = none →
      to_block_stream_event d = .panic (unknownStepMsg d.step)) ∧
    (∀ (o : ModuleOutput) (changes : EntityChanges) (clock : Clock) (h : List Nat),
      ForkStep.from_i32 d.step = some .StepUnknown →
      d.outputs = [o] → o.data = some (.MapOutput (some changes)) →
      d.clock = some clock → tryIntoBlockHash clock.id = .ok h →
      to_block_stream_event d = .panic unknownStepVariantMsg) := by
  constructor
  · intro hstep
    simp only [to_block_stream_event, hstep]
  · intro o changes clock h hstep houts hdata hclock hhash
    simp only [to_block_stream_event, hstep, houts, hclock, hhash, hdata]

theorem C5_fatal_step_conditions_witness :
    to_block_stream_event ⟨7, [], none, ""⟩ = .panic (unknownStepMsg 7) ∧
    to_block_stream_event
        ⟨0, [⟨"out", some (.MapOutput (some ⟨[]⟩))⟩], some ⟨"ab", 5, none⟩, "c"⟩ =
      .panic unknownStepVariantMsg :=
  ⟨(C5_fatal_step_conditions ⟨7, [], none, ""⟩).1 rfl,
   (C5_fatal_step_conditions
      ⟨0, [⟨"out", some (.MapOutput (some ⟨[]⟩))⟩], some ⟨"ab", 5, none⟩, "c"⟩).2
     ⟨"out", some (.MapOutput (some ⟨[]⟩))⟩ ⟨[]⟩ ⟨"ab", 5, none⟩ [171]
     rfl rfl rfl rfl (by decide)⟩

/-- Claim C6: when the same field name occurs more than once inside one
Create/Update change (all occurrences carrying a value), the field
mapping handed to both the proof-of-indexing event and the store binds
that name to the decoded value of the last occurrence — map
insertion-overwrite, not first-wins and not an error
(trigger.rs lines 194-201).  `lastValue` selects the last occurrence of
the name; under the all-present hypothesis it is the plain last
occurrence. -/
theorem C6_duplicate_field_last_wins (poi : Bool) (c : EntityChange) (name : String)
    (f : Field) (v : Value) (m : List (String × Value)) :
    (c.operation = .Create ∨ c.operation = .Update) →
    (∀ g ∈ c.fields, g.new_value.isSome) →
    2 ≤ (c.fields.filter (fun g => g.name = name)).length →
    lastValue name c.fields = some f →
    decode_entity_change f = .ok v →
    buildData [] c.fields = .ok m →
    applyChange poi c =
      .ok (write_poi_event poi (.SetEntity (upperFirst c.entity) c.id m) ++
           [.storeSet ⟨upperFirst c.entity, c.id⟩ m]) ∧
    lookupData m name = some v := by
  intro hop _ _ hlast hdec hm
  constructor
  · rcases hop with hop | hop <;> simp [applyChange, hop, hm]
  · have hbl := buildData_lookup_lastValue c.fields [] m name hm
    simp only [hlast] at hbl
    obtain ⟨v', hv1, hv2⟩ := hbl
    rw [hdec] at hv1
    cases hv1
    exact hv2

theorem C6_duplicate_field_last_wins_witness :
    applyChange true
        ⟨"token", "1", .Update,
         [⟨"name", some (.String "A"), none⟩, ⟨"name", some (.String "B"), none⟩]⟩ =
      .ok (write_poi_event true
             (.SetEntity (upperFirst "token") "1" [("name", .String "B")]) ++
           [.storeSet ⟨upperFirst "token", "1"⟩ [("name", .String "B")]]) ∧
    lookupData [("name", .String "B")] "name" = some (.String "B") :=
  C6_duplicate_field_last_wins true
    ⟨"token", "1", .Update,
     [⟨"name", some (.String "A"), none⟩, ⟨"name", some (.String "B"), none⟩]⟩
    "name" ⟨"name", some (.String "B"), none⟩ (.String "B") [("name", .String "B")]
    (Or.inr rfl) (by decide) (by decide) rfl rfl rfl

/-- Claim C7: when every change of a batch applies cleanly, the batch's
effect trace is the in-order concatenation of the per-change effect
segments (changes are applied strictly in input order), and the segment
of every Create/Update change is the proof-of-indexing `SetEntity`
event followed by the store upsert — the proof event is emitted before
the store mutation is committed (trigger.rs lines 204-215). -/
theorem C7_poi_before_store_in_order (f : EntityChange → List Effect)
    (cs : List EntityChange) :
    (∀ c ∈ cs, applyChange true c = .ok (f c)) →
    process_trigger true cs = ((cs.map f).flatten, none) ∧
    (∀ c ∈ cs, (c.operation = .Create ∨ c.operation = .Update) →
      ∃ t dta, f c = [.poi (.SetEntity t c.id dta), .storeSet ⟨t, c.id⟩ dta]) := by
  intro h
  refine ⟨process_trigger_ok_of_forall true f cs h, ?_⟩
  intro c hc hop
  have hcc := h c hc
  rcases hop with hop | hop
  · simp only [applyChange, hop] at hcc
    cases hbd : buildData [] c.fields with
    | error e => rw [hbd] at hcc; simp at hcc
    | ok data =>
      rw [hbd] at hcc
      simp only [Except.ok.injEq] at hcc
      exact ⟨upperFirst c.entity, data, by rw [← hcc]; simp [write_poi_event]⟩
  · simp only [applyChange, hop] at hcc
    cases hbd : buildData [] c.fields with
    | error e => rw [hbd] at hcc; simp at hcc
    | ok data =>
      rw [hbd] at hcc
      simp only [Except.ok.injEq] at hcc
      exact ⟨upperFirst c.entity, data, by rw [← hcc]; simp [write_poi_event]⟩

theorem C7_poi_before_store_in_order_witness :
    process_trigger true [⟨"t", "1", .Create, []⟩] =
      ([.poi (.SetEntity "T" "1" []), .storeSet ⟨"T", "1"⟩ []], none) := by
  have h := (C7_poi_before_store_in_order
    (fun _ => [.poi (.SetEntity "T" "1" []), .storeSet ⟨"T", "1"⟩ []])
    [⟨"t", "1", .Create, []⟩]
    (by intro c hc; simp at hc; subst hc; rfl)).1
  simpa using h

/-- Claim C8: a decimal-integer string of magnitude at least `2 ^ 64`
(beyond the 64-bit range) presented as a `Bigint` field value decodes to
the `BigInt` store value of that exact magnitude — the value
round-trips through its canonical string form — and a string the
big-integer parser rejects decodes to an error wrapping the parser's
diagnostic (trigger.rs lines 247-249). -/
theorem C8_bigint_roundtrip_and_error :
    (∀ (n : Int) (nm : String) (ov : Option Typed), 2 ^ 64 ≤ n.natAbs →
      decode_entity_change ⟨nm, some (.Bigint (decimalIntString n)), ov⟩ =
        .ok (.BigInt n)) ∧
    (∀ (nm s : String) (ov : Option Typed) (e : String),
      parseBigInt s = .error e →
      decode_entity_change ⟨nm, some (.Bigint s), ov⟩ = .error (.Unknown e)) := by
  constructor
  · intro n nm ov hn
    have hne : n ≠ 0 := by
      intro h0
      rw [h0] at hn
      norm_num at hn
    simp [decode_entity_change, parseBigInt_decimalIntString n hne]
  · intro nm s ov e he
    simp [decode_entity_change, he]

theorem C8_bigint_roundtrip_and_error_witness :
    decode_entity_change
        ⟨"amount", some (.Bigint (decimalIntString 18446744073709551616)), none⟩ =
      .ok (.BigInt 18446744073709551616) ∧
    decode_entity_change ⟨"amount", some (.Bigint "12a"), none⟩ =
      .error (.Unknown invalidDigitMsg) :=
  ⟨C8_bigint_roundtrip_and_error.1 18446744073709551616 "amount" none (by norm_num),
   C8_bigint_roundtrip_and_error.2 "amount" "12a" none invalidDigitMsg rfl⟩

/-- Claim C9: a payload whose fork step decodes to Undo but which
carries zero module outputs yields `Ok None` — no `Revert` event is
produced, because the empty-outputs check (mapper.rs lines 29-31) runs
before the fork step is acted on (mapper.rs lines 74-81). -/
theorem C9_undo_empty_outputs_dropped (d : BlockScopedData) :
    ForkStep.from_i32 d.step = some .StepUndo → d.outputs = [] →
    to_block_stream_event d = .ok none := by
  intro hstep houts
  simp only [to_block_stream_event, hstep, houts]

theorem C9_undo_empty_outputs_dropped_witness :
    to_block_stream_event ⟨2, [], none, ""⟩ = .ok none :=
  C9_undo_empty_outputs_dropped ⟨2, [], none, ""⟩ rfl rfl

/-- Claim C10: a field occurrence with no `new_value` is skipped
entirely by the field loop — the accumulated mapping is exactly as if
the occurrence were absent, so an earlier decoded value for the same
name is kept, and a trailing valueless occurrence neither removes the
field nor binds it to Null (trigger.rs lines 195-201). -/
theorem C10_absent_value_skipped (acc : List (String × Value))
    (xs ys : List Field) (f : Field) :
    f.new_value = none →
    buildData acc (xs ++ f :: ys) = buildData acc (xs ++ ys) := by
  intro hf
  induction xs generalizing acc with
  | nil =>
    have hs : f.new_value.isSome = false := by rw [hf]; rfl
    simp [buildData, hs]
  | cons g xs ih =>
    simp only [List.cons_append, buildData]
    by_cases hs : g.new_value.isSome
    · simp only [hs, if_true]
      cases hd : decode_entity_change g with
      | error e => rfl
      | ok v => exact ih (insertData acc g.name v)
    · have hs' : g.new_value.isSome = false := by simpa using hs
      simp only [hs', Bool.false_eq_true, if_false]
      exact ih acc

theorem C10_absent_value_skipped_witness :
    buildData [] [⟨"name", some (.String "A"), none⟩, ⟨"name", none, none⟩] =
      buildData [] [⟨"name", some (.String "A"), none⟩] :=
  C10_absent_value_skipped [] [⟨"name", some (.String "A"), none⟩] []
    ⟨"name", none, none⟩ rfl

end Substreams
